import Mathlib

/-!
Verification development for the senweaver-ide-admin repository.

The repository ships the Vue admin frontend (src/frontend); the backend
core described by the specification (Key Pool Allocation Engine, Client
Session Registry, Heartbeat Monitor, Usage/Quota Tracker) is not present
under src/, so those components are modelled from the specification text,
as marked on each definition.  Frontend logic (KeyPools.vue, router) is
embedded directly from the source.
-/

namespace SenWeaver

/-! ## Key Pool Manager (spec section 4.2) -/

/-- Modelled from the spec: backend KeyPool record is missing from src/.
A pool holds a capacity `max_clients` (the sentinel `-1`, as used by the
frontend, means unbounded) and a current occupancy count. -/
structure KeyPool where
  max_clients : Int
  occupancy : Nat
deriving DecidableEq, Repr

/-- Modelled from the spec: atomically checks `occupancy < max_clients`
(always succeeds if unbounded) and increments occupancy; returns `none`
(PoolExhausted) otherwise. -/
def tryAcquire (p : KeyPool) : Option KeyPool :=
  if p.max_clients = -1 ∨ (p.occupancy : Int) < p.max_clients then
    some { p with occupancy := p.occupancy + 1 }
  else
    none

/-- Modelled from the spec: atomically decrements occupancy, floored at
zero (natural subtraction); releasing an already-free pool is a no-op. -/
def release (p : KeyPool) : KeyPool :=
  { p with occupancy := p.occupancy - 1 }

/-- One atomic step on a pool: a successful acquire, a failed acquire
(which leaves the pool unchanged), or a release. -/
inductive PoolStep : KeyPool → KeyPool → Prop where
  | acquireOk (p q : KeyPool) : tryAcquire p = some q → PoolStep p q
  | acquireFail (p : KeyPool) : tryAcquire p = none → PoolStep p p
  | releaseStep (p : KeyPool) : PoolStep p (release p)

/-- States reachable from an initial pool by atomic steps. -/
inductive PoolReachable (init : KeyPool) : KeyPool → Prop where
  | refl : PoolReachable init init
  | step {q r : KeyPool} : PoolReachable init q → PoolStep q r → PoolReachable init r

theorem poolStep_max_clients {p q : KeyPool} (h : PoolStep p q) :
    q.max_clients = p.max_clients := by
  cases h
  · rename_i hacq
    unfold tryAcquire at hacq
    split at hacq
    · cases hacq
      rfl
    · cases hacq
  · rfl
  · rfl

theorem poolReachable_invariant {m : Int} (hm : 0 ≤ m) {p : KeyPool}
    (h : PoolReachable (KeyPool.mk m 0) p) :
    p.max_clients = m ∧ (p.occupancy : Int) ≤ m := by
  induction h with
  | refl => exact ⟨rfl, by simpa using hm⟩
  | step hq hst ih =>
    obtain ⟨h1, h2⟩ := ih
    cases hst
    · rename_i hacq
      unfold tryAcquire at hacq
      split at hacq
      · rename_i hcond
        cases hacq
        refine ⟨h1, ?_⟩
        rcases hcond with hub | hlt
        · rw [h1] at hub
          omega
        · rw [h1] at hlt
          push_cast
          omega
      · cases hacq
    · exact ⟨h1, h2⟩
    · refine ⟨h1, ?_⟩
      simp only [release]
      omega

/-- C1: for every bounded pool and every sequence of atomic tryAcquire and
release steps from an empty pool, occupancy satisfies
0 ≤ occupancy ≤ max_clients at every reachable state; tryAcquire fails
with PoolExhausted exactly when occupancy = max_clients; and tryAcquire on
an unbounded pool always succeeds. -/
theorem C1_pool_occupancy_invariant (m : Int) (hm : 0 ≤ m) (p : KeyPool)
    (h : PoolReachable (KeyPool.mk m 0) p) :
    (0 ≤ (p.occupancy : Int) ∧ (p.occupancy : Int) ≤ m) ∧
    (tryAcquire p = none ↔ (p.occupancy : Int) = m) ∧
    (∀ q : KeyPool, q.max_clients = -1 → ∃ q2, tryAcquire q = some q2) := by
  obtain ⟨hmax, hocc⟩ := poolReachable_invariant hm h
  refine ⟨⟨by omega, hocc⟩, ?_, ?_⟩
  · constructor
    · intro hnone
      unfold tryAcquire at hnone
      split at hnone
      · cases hnone
      · rename_i hcond
        push_neg at hcond
        obtain ⟨hub, hle⟩ := hcond
        omega
    · intro heq
      unfold tryAcquire
      split
      · rename_i hcond
        rcases hcond with hub | hlt
        · omega
        · omega
      · rfl
  · intro q hq
    exact ⟨{ q with occupancy := q.occupancy + 1 }, by simp [tryAcquire, hq]⟩

/-- Witness for C1 at the concrete bounded pool of capacity 2 in its
initial state. -/
theorem C1_pool_occupancy_invariant_witness :
    (0 ≤ ((KeyPool.mk 2 0).occupancy : Int) ∧ ((KeyPool.mk 2 0).occupancy : Int) ≤ 2) ∧
    (tryAcquire (KeyPool.mk 2 0) = none ↔ ((KeyPool.mk 2 0).occupancy : Int) = 2) ∧
    (∀ q : KeyPool, q.max_clients = -1 → ∃ q2, tryAcquire q = some q2) :=
  C1_pool_occupancy_invariant 2 (by decide) (KeyPool.mk 2 0) PoolReachable.refl

/-! ## Allocation-level release (spec sections 4.3 and 8) -/

/-- Modelled from the spec: an Allocation links a pool to a client and
carries a released flag (the release timestamp being set). -/
structure Allocation where
  pool_id : Nat
  released : Bool
deriving DecidableEq, Repr

/-- Modelled from the spec: releasing an Allocation releases the pool once
and stamps the allocation released; an already-released Allocation is left
alone. -/
def releaseAllocation (a : Allocation) (p : KeyPool) : Allocation × KeyPool :=
  if a.released then (a, p) else ({ a with released := true }, release p)

/-- C5: release decrements the pool occupancy floored at zero, releasing an
already-free pool is a no-op, and releasing the same Allocation twice is
idempotent, changing occupancy by at most one decrement in total. -/
theorem C5_release_idempotent :
    (∀ p : KeyPool, (release p).occupancy = p.occupancy - 1) ∧
    (∀ m : Int, release (KeyPool.mk m 0) = KeyPool.mk m 0) ∧
    (∀ (a : Allocation) (p : KeyPool),
      releaseAllocation (releaseAllocation a p).1 (releaseAllocation a p).2 =
        releaseAllocation a p) ∧
    (∀ (a : Allocation) (p : KeyPool),
      p.occupancy - 1 ≤ ((releaseAllocation (releaseAllocation a p).1
        (releaseAllocation a p).2).2).occupancy ∧
      ((releaseAllocation (releaseAllocation a p).1
        (releaseAllocation a p).2).2).occupancy ≤ p.occupancy) := by
  refine ⟨fun p => rfl, fun m => rfl, ?_, ?_⟩
  · intro a p
    by_cases h : a.released <;> simp [releaseAllocation, h]
  · intro a p
    by_cases h : a.released <;> simp [releaseAllocation, h, release]

/-! ## Usage/Quota Tracker (spec section 4.6) -/

/-- Result of a quota check. -/
inductive QuotaResult where
  | Allowed
  | QuotaExceeded
  | AccessDisabled
deriving DecidableEq, Repr

/-- Modelled from the spec: per-user usage counter with a limit, a
reset-cycle length, a last-reset timestamp and an enabled flag; the
backend Usage/Quota Tracker is missing from src/. -/
structure UsageCounter where
  used : Nat
  limit : Nat
  resetCycleDays : Nat
  lastResetAt : Nat
  enabled : Bool
deriving DecidableEq, Repr

/-- Modelled from the spec: the reset-cycle rollover applied before the
quota check — if `now - lastResetAt >= resetCycleDays`, roll the counter
to zero and advance `lastResetAt`. -/
def applyReset (c : UsageCounter) (now : Nat) : UsageCounter :=
  if c.resetCycleDays ≤ now - c.lastResetAt then
    { c with used := 0, lastResetAt := now }
  else c

/-- Modelled from the spec: if disabled, reject; roll the counter if the
reset cycle has elapsed; if `used >= limit`, reject; otherwise increment
`used` and allow. -/
def checkAndConsume (c : UsageCounter) (now : Nat) : QuotaResult × UsageCounter :=
  if c.enabled then
    if (applyReset c now).limit ≤ (applyReset c now).used then
      (QuotaResult.QuotaExceeded, applyReset c now)
    else
      (QuotaResult.Allowed,
        { applyReset c now with used := (applyReset c now).used + 1 })
  else
    (QuotaResult.AccessDisabled, c)

/-- Running the counter through a sequence of calls at given times. -/
def runCounter (c : UsageCounter) (ts : List Nat) : UsageCounter :=
  ts.foldl (fun c2 t => (checkAndConsume c2 t).2) c

theorem applyReset_limit (c : UsageCounter) (now : Nat) :
    (applyReset c now).limit = c.limit := by
  unfold applyReset
  split <;> rfl

theorem applyReset_used_le (c : UsageCounter) (now : Nat)
    (h : c.used ≤ c.limit) : (applyReset c now).used ≤ c.limit := by
  unfold applyReset
  split
  · simp
  · exact h

theorem checkAndConsume_limit_eq (c : UsageCounter) (now : Nat) :
    (checkAndConsume c now).2.limit = c.limit := by
  unfold checkAndConsume
  split
  · split
    · exact applyReset_limit c now
    · exact applyReset_limit c now
  · rfl

theorem checkAndConsume_used_le (c : UsageCounter) (now : Nat)
    (h : c.used ≤ c.limit) : (checkAndConsume c now).2.used ≤ c.limit := by
  unfold checkAndConsume
  split
  · split
    · exact applyReset_used_le c now h
    · rename_i hlt
      push_neg at hlt
      have hl := applyReset_limit c now
      show (applyReset c now).used + 1 ≤ c.limit
      omega
  · exact h

theorem runCounter_used_le (c : UsageCounter) (ts : List Nat)
    (h : c.used ≤ c.limit) : (runCounter c ts).used ≤ (runCounter c ts).limit := by
  induction ts generalizing c with
  | nil => exact h
  | cons t ts ih =>
    have hstep := checkAndConsume_used_le c t h
    have hlim := checkAndConsume_limit_eq c t
    show (runCounter (checkAndConsume c t).2 ts).used ≤
      (runCounter (checkAndConsume c t).2 ts).limit
    exact ih _ (by omega)

/-- C4: checkAndConsume behaviour — disabled gives AccessDisabled with the
counter untouched; when the reset cycle has elapsed the counter is first
rolled to zero and lastResetAt advanced before checking; at or above the
limit it rejects with QuotaExceeded; otherwise it increments `used` and
allows. Consequently `used` never exceeds `limit` along any sequence of
calls from a state satisfying that bound. -/
theorem C4_checkAndConsume_spec (c : UsageCounter) (now : Nat) :
    (c.enabled = false → checkAndConsume c now = (QuotaResult.AccessDisabled, c)) ∧
    (c.enabled = true → c.resetCycleDays ≤ now - c.lastResetAt → 0 < c.limit →
      checkAndConsume c now =
        (QuotaResult.Allowed, { c with used := 1, lastResetAt := now })) ∧
    (c.enabled = true → c.resetCycleDays ≤ now - c.lastResetAt → c.limit = 0 →
      checkAndConsume c now =
        (QuotaResult.QuotaExceeded, { c with used := 0, lastResetAt := now })) ∧
    (c.enabled = true → ¬ c.resetCycleDays ≤ now - c.lastResetAt → c.limit ≤ c.used →
      checkAndConsume c now = (QuotaResult.QuotaExceeded, c)) ∧
    (c.enabled = true → ¬ c.resetCycleDays ≤ now - c.lastResetAt → c.used < c.limit →
      checkAndConsume c now = (QuotaResult.Allowed, { c with used := c.used + 1 })) ∧
    (∀ ts : List Nat, c.used ≤ c.limit →
      (runCounter c ts).used ≤ (runCounter c ts).limit) := by
  refine ⟨?_, ?_, ?_, ?_, ?_, fun ts h => runCounter_used_le c ts h⟩
  · intro hdis
    simp [checkAndConsume, hdis]
  · intro hen hreset hpos
    have hnle : ¬ c.limit ≤ 0 := by omega
    simp [checkAndConsume, applyReset, hen, hreset, hnle]
  · intro hen hreset hzero
    simp [checkAndConsume, applyReset, hen, hreset, hzero]
  · intro hen hreset hge
    simp [checkAndConsume, applyReset, hen, hreset, hge]
  · intro hen hreset hlt
    have hnle : ¬ c.limit ≤ c.used := by omega
    simp [checkAndConsume, applyReset, hen, hreset, hnle]

/-- Witness for C4 at a concrete counter: enabled, used 2 of limit 5, no
reset due at time 3. -/
theorem C4_checkAndConsume_spec_witness :
    checkAndConsume (UsageCounter.mk 2 5 7 0 true) 3 =
      (QuotaResult.Allowed, UsageCounter.mk 3 5 7 0 true) :=
  (C4_checkAndConsume_spec (UsageCounter.mk 2 5 7 0 true) 3).2.2.2.2.1
    rfl (by decide) (by decide)

/-! ## Client Session Registry (spec section 4.4) and Heartbeat Monitor (4.5) -/

/-- Lifecycle state of a client session (only the live/closed distinction
matters to the registry invariants). -/
inductive SessionState where
  | Active
  | Closed
deriving DecidableEq, Repr

/-- Modelled from the spec: a connected client session — user identity,
client/session identifier, last-heartbeat timestamp, lifecycle state, and
the allocations it holds. The backend registry is missing from src/. -/
structure ClientSession where
  sid : Nat
  user : String
  sstate : SessionState
  lastHeartbeatAt : Nat
  allocations : List Allocation
deriving DecidableEq, Repr

/-- Modelled from the spec: the registry of live client connections. -/
structure Registry where
  sessions : List ClientSession
deriving DecidableEq, Repr

/-- Modelled from the spec: closing a session marks it Closed and releases
every allocation it holds — the single close path shared by explicit
disconnect, eviction and heartbeat timeout. -/
def closeSession (s : ClientSession) : ClientSession :=
  { s with sstate := SessionState.Closed,
           allocations := s.allocations.map (fun a => { a with released := true }) }

/-- A session that is live for the given user identity. -/
def isActiveFor (u : String) (s : ClientSession) : Bool :=
  s.user == u && s.sstate == SessionState.Active

/-- Modelled from the spec: evicting a user closes every Active session of
that identity (forcing its allocations released). -/
def evict (u : String) (r : Registry) : Registry :=
  { sessions := r.sessions.map (fun s => if isActiveFor u s then closeSession s else s) }

/-- Modelled from the spec: a successful login atomically evicts any prior
Active session for the identity and admits the new session as Active. -/
def login (u : String) (sid now : Nat) (r : Registry) : Registry :=
  { sessions :=
      ClientSession.mk sid u SessionState.Active now [] :: (evict u r).sessions }

/-- Modelled from the spec: explicit disconnect closes the session with the
given identifier through the common close path. -/
def disconnect (sid : Nat) (r : Registry) : Registry :=
  { sessions := r.sessions.map (fun s => if s.sid == sid then closeSession s else s) }

/-- Modelled from the spec: an Active session records a new allocation. -/
def addAllocation (sid pid : Nat) (r : Registry) : Registry :=
  { sessions := r.sessions.map (fun s =>
      if s.sid == sid && s.sstate == SessionState.Active then
        { s with allocations := Allocation.mk pid false :: s.allocations }
      else s) }

/-- Modelled from the spec: a heartbeat refreshes the session's liveness
timestamp. -/
def heartbeat (sid now : Nat) (r : Registry) : Registry :=
  { sessions := r.sessions.map (fun s =>
      if s.sid == sid && s.sstate == SessionState.Active then
        { s with lastHeartbeatAt := now }
      else s) }

/-- Age of a session's heartbeat at the given instant. -/
def heartbeatAge (now : Nat) (s : ClientSession) : Nat :=
  now - s.lastHeartbeatAt

/-- A session the sweep must close: Active with heartbeat age beyond the
timeout threshold. -/
def staleAt (timeout now : Nat) (s : ClientSession) : Bool :=
  s.sstate == SessionState.Active && timeout < heartbeatAge now s

/-- Modelled from the spec: the background sweep closes every stale
session through the same close path as explicit disconnect. -/
def sweep (timeout now : Nat) (r : Registry) : Registry :=
  { sessions := r.sessions.map (fun s =>
      if staleAt timeout now s then closeSession s else s) }

/-- One registry step: login, explicit disconnect, allocation grant,
heartbeat, or a liveness sweep. -/
inductive RegStep : Registry → Registry → Prop where
  | loginStep (u : String) (sid now : Nat) (r : Registry) : RegStep r (login u sid now r)
  | disconnectStep (sid : Nat) (r : Registry) : RegStep r (disconnect sid r)
  | allocStep (sid pid : Nat) (r : Registry) : RegStep r (addAllocation sid pid r)
  | heartbeatStep (sid now : Nat) (r : Registry) : RegStep r (heartbeat sid now r)
  | sweepStep (timeout now : Nat) (r : Registry) : RegStep r (sweep timeout now r)

/-- Registry states reachable from the empty registry. -/
inductive RegReachable : Registry → Prop where
  | init : RegReachable (Registry.mk [])
  | step {r r2 : Registry} : RegReachable r → RegStep r r2 → RegReachable r2

/-- Number of live sessions a user identity has in a session list. -/
def listActiveCount (u : String) (l : List ClientSession) : Nat :=
  (l.filter (isActiveFor u)).length

/-- Number of live sessions a user identity has in the registry. -/
def activeCount (u : String) (r : Registry) : Nat :=
  listActiveCount u r.sessions

theorem isActiveFor_closeSession (u : String) (s : ClientSession) :
    isActiveFor u (closeSession s) = false := by
  simp [isActiveFor, closeSession]

theorem listActiveCount_cons (u : String) (s : ClientSession) (l : List ClientSession) :
    listActiveCount u (s :: l) =
      (if isActiveFor u s = true then 1 else 0) + listActiveCount u l := by
  simp only [listActiveCount, List.filter_cons]
  split
  · simp [Nat.add_comm]
  · simp

theorem listActiveCount_map_le (u : String) (f : ClientSession → ClientSession)
    (hf : ∀ s, isActiveFor u (f s) = true → isActiveFor u s = true)
    (l : List ClientSession) : listActiveCount u (l.map f) ≤ listActiveCount u l := by
  induction l with
  | nil => simp [listActiveCount]
  | cons s l ih =>
    simp only [List.map_cons]
    rw [listActiveCount_cons, listActiveCount_cons]
    by_cases h2 : isActiveFor u (f s) = true
    · rw [if_pos h2, if_pos (hf s h2)]
      omega
    · rw [if_neg h2]
      split <;> omega

theorem listActiveCount_evict_self (u : String) (l : List ClientSession) :
    listActiveCount u (l.map (fun s => if isActiveFor u s then closeSession s else s)) = 0 := by
  induction l with
  | nil => rfl
  | cons s l ih =>
    simp only [List.map_cons]
    rw [listActiveCount_cons, ih]
    by_cases h : isActiveFor u s = true
    · rw [if_pos h, isActiveFor_closeSession]
      simp
    · rw [if_neg h]
      simp only [Bool.not_eq_true] at h
      simp [h]

theorem listActiveCount_evict_other (u u0 : String) (hne : u ≠ u0)
    (l : List ClientSession) :
    listActiveCount u (l.map (fun s => if isActiveFor u0 s then closeSession s else s)) =
      listActiveCount u l := by
  induction l with
  | nil => rfl
  | cons s l ih =>
    simp only [List.map_cons]
    rw [listActiveCount_cons, listActiveCount_cons, ih]
    by_cases h : isActiveFor u0 s = true
    · have hsu : s.user = u0 := by
        simp [isActiveFor] at h
        exact h.1
      have hb : (s.user == u) = false := by
        rw [hsu]
        exact beq_eq_false_iff_ne.mpr (Ne.symm hne)
      have hnu : isActiveFor u s = false := by
        simp [isActiveFor, hb]
      rw [if_pos h, isActiveFor_closeSession, hnu]
    · rw [if_neg h]

theorem activeCount_login_self (u : String) (sid now : Nat) (r : Registry) :
    activeCount u (login u sid now r) = 1 := by
  have hnew : isActiveFor u (ClientSession.mk sid u SessionState.Active now []) = true := by
    simp [isActiveFor]
  simp only [activeCount, login, evict]
  rw [listActiveCount_cons, if_pos hnew, listActiveCount_evict_self]

theorem activeCount_login_other (u u0 : String) (hne : u ≠ u0) (sid now : Nat)
    (r : Registry) : activeCount u (login u0 sid now r) = activeCount u r := by
  have hnew : isActiveFor u (ClientSession.mk sid u0 SessionState.Active now []) = false := by
    have hb : (u0 == u) = false := beq_eq_false_iff_ne.mpr (Ne.symm hne)
    simp [isActiveFor, hb]
  simp only [activeCount, login, evict]
  rw [listActiveCount_cons, hnew, listActiveCount_evict_other u u0 hne]
  simp

theorem disconnect_active_mono (u : String) (sid : Nat) (s : ClientSession)
    (hs : isActiveFor u (if s.sid == sid then closeSession s else s) = true) :
    isActiveFor u s = true := by
  by_cases h2 : (s.sid == sid) = true
  · rw [if_pos h2, isActiveFor_closeSession] at hs
    cases hs
  · rwa [if_neg h2] at hs

theorem addAllocation_active_mono (u : String) (sid pid : Nat) (s : ClientSession)
    (hs : isActiveFor u (if s.sid == sid && s.sstate == SessionState.Active then
      { s with allocations := Allocation.mk pid false :: s.allocations } else s) = true) :
    isActiveFor u s = true := by
  by_cases h2 : (s.sid == sid && s.sstate == SessionState.Active) = true
  · rw [if_pos h2] at hs
    simpa [isActiveFor] using hs
  · rwa [if_neg h2] at hs

theorem heartbeat_active_mono (u : String) (sid now : Nat) (s : ClientSession)
    (hs : isActiveFor u (if s.sid == sid && s.sstate == SessionState.Active then
      { s with lastHeartbeatAt := now } else s) = true) :
    isActiveFor u s = true := by
  by_cases h2 : (s.sid == sid && s.sstate == SessionState.Active) = true
  · rw [if_pos h2] at hs
    simpa [isActiveFor] using hs
  · rwa [if_neg h2] at hs

theorem sweep_active_mono (u : String) (timeout now : Nat) (s : ClientSession)
    (hs : isActiveFor u (if staleAt timeout now s then closeSession s else s) = true) :
    isActiveFor u s = true := by
  by_cases h2 : (staleAt timeout now s) = true
  · rw [if_pos h2, isActiveFor_closeSession] at hs
    cases hs
  · rwa [if_neg h2] at hs

theorem regStep_activeCount_le {r r2 : Registry} (hst : RegStep r r2) (u : String)
    (h : activeCount u r ≤ 1) : activeCount u r2 ≤ 1 := by
  cases hst with
  | loginStep u0 sid now =>
    by_cases hu : u = u0
    · subst hu
      rw [activeCount_login_self]
    · rw [activeCount_login_other u u0 hu]
      exact h
  | disconnectStep sid =>
    have hle := listActiveCount_map_le u
      (fun s => if s.sid == sid then closeSession s else s)
      (fun s hs => disconnect_active_mono u sid s hs) r.sessions
    simp only [activeCount] at h ⊢
    simp only [disconnect]
    omega
  | allocStep sid pid =>
    have hle := listActiveCount_map_le u
      (fun s => if s.sid == sid && s.sstate == SessionState.Active then
        { s with allocations := Allocation.mk pid false :: s.allocations } else s)
      (fun s hs => addAllocation_active_mono u sid pid s hs) r.sessions
    simp only [activeCount] at h ⊢
    simp only [addAllocation]
    omega
  | heartbeatStep sid now =>
    have hle := listActiveCount_map_le u
      (fun s => if s.sid == sid && s.sstate == SessionState.Active then
        { s with lastHeartbeatAt := now } else s)
      (fun s hs => heartbeat_active_mono u sid now s hs) r.sessions
    simp only [activeCount] at h ⊢
    simp only [heartbeat]
    omega
  | sweepStep timeout now =>
    have hle := listActiveCount_map_le u
      (fun s => if staleAt timeout now s then closeSession s else s)
      (fun s hs => sweep_active_mono u timeout now s hs) r.sessions
    simp only [activeCount] at h ⊢
    simp only [sweep]
    omega

theorem regReachable_at_most_one_active {r : Registry} (h : RegReachable r) :
    ∀ u : String, activeCount u r ≤ 1 := by
  induction h with
  | init => intro u; simp [activeCount, listActiveCount]
  | step hr hst ih =>
    intro u
    exact regStep_activeCount_le hst u (ih u)

theorem closeSession_releases (s : ClientSession) :
    (closeSession s).sstate = SessionState.Closed ∧
      ∀ a ∈ (closeSession s).allocations, a.released = true := by
  refine ⟨rfl, ?_⟩
  intro a ha
  simp only [closeSession, List.mem_map] at ha
  obtain ⟨a0, _, ha0⟩ := ha
  rw [← ha0]

/-- C2: at every reachable registry state each user identity has at most
one Active session; and a successful login for an identity with an
existing Active session atomically closes the old session, with all of its
allocations released, in the very state in which the new session becomes
Active. -/
theorem C2_single_active_session (r : Registry) (h : RegReachable r) :
    (∀ u : String, activeCount u r ≤ 1) ∧
    (∀ (u : String) (sid now : Nat) (s : ClientSession),
      s ∈ r.sessions → isActiveFor u s = true →
        closeSession s ∈ (login u sid now r).sessions ∧
        (closeSession s).sstate = SessionState.Closed ∧
        (∀ a ∈ (closeSession s).allocations, a.released = true)) ∧
    (∀ (u : String) (sid now : Nat),
      ClientSession.mk sid u SessionState.Active now [] ∈ (login u sid now r).sessions ∧
      isActiveFor u (ClientSession.mk sid u SessionState.Active now []) = true) := by
  refine ⟨regReachable_at_most_one_active h, ?_, ?_⟩
  · intro u sid now s hs hact
    refine ⟨?_, closeSession_releases s⟩
    simp only [login, evict, List.mem_cons, List.mem_map]
    right
    exact ⟨s, hs, by rw [if_pos hact]⟩
  · intro u sid now
    exact ⟨by simp [login], by simp [isActiveFor]⟩

/-- Witness for C2 at a concrete reachable registry: the state reached by
logging in user u1 and then user u2 from the empty registry. -/
theorem C2_single_active_session_witness :
    activeCount "u1" (login "u2" 2 5 (login "u1" 1 0 (Registry.mk []))) ≤ 1 :=
  (C2_single_active_session _
    (RegReachable.step
      (RegReachable.step RegReachable.init (RegStep.loginStep "u1" 1 0 _))
      (RegStep.loginStep "u2" 2 5 _))).1 "u1"

/-- C6: a session that is Active and past the heartbeat timeout at instant
τ is closed — with all its allocations released, via the same close path
as explicit disconnect — by the sweep running at some multiple of the
sweep interval Δ no later than τ + Δ. -/
theorem C6_stale_session_swept (Δ timeout τ : Nat) (r : Registry)
    (s : ClientSession) (hΔ : 0 < Δ) (hs : s ∈ r.sessions)
    (hact : s.sstate = SessionState.Active)
    (hstale : timeout < τ - s.lastHeartbeatAt) :
    ∃ t : Nat, τ ≤ t ∧ t ≤ τ + Δ ∧ Δ ∣ t ∧
      closeSession s ∈ (sweep timeout t r).sessions ∧
      closeSession s ∈ (disconnect s.sid r).sessions ∧
      (closeSession s).sstate = SessionState.Closed ∧
      (∀ a ∈ (closeSession s).allocations, a.released = true) := by
  refine ⟨(τ / Δ + 1) * Δ, ?_, ?_, ⟨τ / Δ + 1, by ring⟩, ?_, ?_, closeSession_releases s⟩
  · have hdm := Nat.div_add_mod τ Δ
    have hmlt := Nat.mod_lt τ hΔ
    have hexp : (τ / Δ + 1) * Δ = Δ * (τ / Δ) + Δ := by ring
    omega
  · have hdm := Nat.div_add_mod τ Δ
    have hexp : (τ / Δ + 1) * Δ = Δ * (τ / Δ) + Δ := by ring
    omega
  · have hτle : τ ≤ (τ / Δ + 1) * Δ := by
      have hdm := Nat.div_add_mod τ Δ
      have hmlt := Nat.mod_lt τ hΔ
      have hexp : (τ / Δ + 1) * Δ = Δ * (τ / Δ) + Δ := by ring
      omega
    have hstale2 : staleAt timeout ((τ / Δ + 1) * Δ) s = true := by
      simp [staleAt, heartbeatAge, hact]
      omega
    simp only [sweep, List.mem_map]
    exact ⟨s, hs, by rw [if_pos hstale2]⟩
  · simp only [disconnect, List.mem_map]
    exact ⟨s, hs, by simp⟩

/-- Witness for C6 at a concrete stale session: interval 30, timeout 120,
session last heartbeat at 0, checked at instant 121. -/
theorem C6_stale_session_swept_witness :
    ∃ t : Nat, 121 ≤ t ∧ t ≤ 121 + 30 ∧ 30 ∣ t ∧
      closeSession (ClientSession.mk 1 "u1" SessionState.Active 0 [Allocation.mk 7 false]) ∈
        (sweep 120 t (Registry.mk
          [ClientSession.mk 1 "u1" SessionState.Active 0 [Allocation.mk 7 false]])).sessions ∧
      closeSession (ClientSession.mk 1 "u1" SessionState.Active 0 [Allocation.mk 7 false]) ∈
        (disconnect 1 (Registry.mk
          [ClientSession.mk 1 "u1" SessionState.Active 0 [Allocation.mk 7 false]])).sessions ∧
      (closeSession (ClientSession.mk 1 "u1" SessionState.Active 0 [Allocation.mk 7 false])).sstate =
        SessionState.Closed ∧
      (∀ a ∈ (closeSession (ClientSession.mk 1 "u1" SessionState.Active 0
          [Allocation.mk 7 false])).allocations, a.released = true) :=
  C6_stale_session_swept 30 120 121 _ _ (by decide) (by simp) rfl (by decide)

/-! ## Allocation Engine (spec section 4.3) -/

/-- Modelled from the spec: an upstream provider — unique identifier,
priority (lower tried first), active flag. -/
structure Provider where
  name : String
  priority : Nat
  is_active : Bool
deriving DecidableEq, Repr

/-- Modelled from the spec: a key pool row as the engine sees it — owning
provider, capacity (`-1` unbounded), current occupancy, active flag. -/
structure Pool where
  pid : Nat
  provider_name : String
  max_clients : Int
  current_clients : Nat
  is_active : Bool
deriving DecidableEq, Repr

/-- Whether tryAcquire on this pool would succeed: unbounded, or occupancy
below capacity. -/
def poolHasCapacity (k : Pool) : Bool :=
  k.max_clients == -1 || (k.current_clients : Int) < k.max_clients

/-- Provider ordering used for candidate enumeration: ascending priority. -/
def providerLE (a b : Provider) : Prop := a.priority ≤ b.priority

instance : DecidableRel providerLE := fun a b => Nat.decLe a.priority b.priority

instance : IsTotal Provider providerLE := ⟨fun a b => Nat.le_total a.priority b.priority⟩

instance : IsTrans Provider providerLE := ⟨fun _ _ _ hab hbc => Nat.le_trans hab hbc⟩

/-- Pool ordering within a provider: ascending occupancy. -/
def poolLE (a b : Pool) : Prop := a.current_clients ≤ b.current_clients

instance : DecidableRel poolLE := fun a b => Nat.decLe a.current_clients b.current_clients

instance : IsTotal Pool poolLE := ⟨fun a b => Nat.le_total a.current_clients b.current_clients⟩

instance : IsTrans Pool poolLE := ⟨fun _ _ _ hab hbc => Nat.le_trans hab hbc⟩

/-- Modelled from the spec: active providers in ascending priority order. -/
def activeProvidersByPriority (ps : List Provider) : List Provider :=
  List.insertionSort providerLE (ps.filter (fun p => p.is_active))

/-- Modelled from the spec: a provider's active pools in ascending
occupancy order (least-loaded first). -/
def poolsForProvider (ks : List Pool) (p : Provider) : List Pool :=
  List.insertionSort poolLE (ks.filter (fun k => k.is_active && k.provider_name == p.name))

/-- Modelled from the spec: the allocation engine's view of the system. -/
structure EngineState where
  providers : List Provider
  pools : List Pool
  counter : UsageCounter
deriving DecidableEq, Repr

/-- Candidate pools in the order the engine tries them: providers by
ascending priority, pools within a provider by ascending occupancy. -/
def candidatePools (st : EngineState) : List Pool :=
  (activeProvidersByPriority st.providers).flatMap (poolsForProvider st.pools)

/-- First candidate whose tryAcquire succeeds. -/
def firstFit : List Pool → Option Pool
  | [] => none
  | k :: ks => if poolHasCapacity k then some k else firstFit ks

/-- Increment the occupancy of the pool with the given id. -/
def bumpPool (ks : List Pool) (pid : Nat) : List Pool :=
  ks.map (fun k => if k.pid == pid then
    { k with current_clients := k.current_clients + 1 } else k)

/-- Outcome of an allocate call. -/
inductive AllocResult where
  | Allocated (pid : Nat)
  | AllPoolsExhausted
  | QuotaExceeded
  | AccessDisabled
deriving DecidableEq, Repr

/-- Modelled from the spec: allocate consults the quota tracker first (no
pool touched on policy rejection), then tries candidate pools first-fit
across active providers by priority and least-loaded within a provider;
the first successful tryAcquire wins, and if every eligible pool is
exhausted the call fails with AllPoolsExhausted. -/
def allocate (st : EngineState) (now : Nat) : AllocResult × EngineState :=
  match checkAndConsume st.counter now with
  | (QuotaResult.AccessDisabled, c1) =>
      (AllocResult.AccessDisabled, { st with counter := c1 })
  | (QuotaResult.QuotaExceeded, c1) =>
      (AllocResult.QuotaExceeded, { st with counter := c1 })
  | (QuotaResult.Allowed, c1) =>
      match firstFit (candidatePools st) with
      | none => (AllocResult.AllPoolsExhausted, { st with counter := c1 })
      | some k => (AllocResult.Allocated k.pid,
          { st with counter := c1, pools := bumpPool st.pools k.pid })

theorem firstFit_none_iff (l : List Pool) :
    firstFit l = none ↔ ∀ k ∈ l, poolHasCapacity k = false := by
  induction l with
  | nil => simp [firstFit]
  | cons k ks ih =>
    simp only [firstFit]
    by_cases h : poolHasCapacity k = true
    · rw [if_pos h]
      constructor
      · intro hsome
        cases hsome
      · intro hall
        have h2 := hall k (List.mem_cons_self k ks)
        rw [h] at h2
        cases h2
    · rw [if_neg h, ih]
      simp only [Bool.not_eq_true] at h
      constructor
      · intro hall k2 hk2
        rcases List.mem_cons.mp hk2 with he | hm
        · rw [he]
          exact h
        · exact hall k2 hm
      · intro hall k2 hk2
        exact hall k2 (List.mem_cons_of_mem _ hk2)

theorem firstFit_some (l : List Pool) (k : Pool) (h : firstFit l = some k) :
    ∃ l1 l2, l = l1 ++ k :: l2 ∧ poolHasCapacity k = true ∧
      ∀ j ∈ l1, poolHasCapacity j = false := by
  induction l with
  | nil => cases h
  | cons k0 ks ih =>
    simp only [firstFit] at h
    by_cases hc : poolHasCapacity k0 = true
    · rw [if_pos hc] at h
      cases h
      exact ⟨[], ks, rfl, hc, by simp⟩
    · rw [if_neg hc] at h
      obtain ⟨l1, l2, heq, hcap, hall⟩ := ih h
      simp only [Bool.not_eq_true] at hc
      refine ⟨k0 :: l1, l2, by rw [heq]; rfl, hcap, ?_⟩
      intro j hj
      rcases List.mem_cons.mp hj with he | hm
      · rw [he]
        exact hc
      · exact hall j hm

theorem mem_candidatePools (st : EngineState) (k : Pool) :
    k ∈ candidatePools st ↔
      (k ∈ st.pools ∧ k.is_active = true ∧
        ∃ p ∈ st.providers, p.is_active = true ∧ k.provider_name = p.name) := by
  simp only [candidatePools, List.mem_flatMap, activeProvidersByPriority,
    poolsForProvider, List.mem_insertionSort, List.mem_filter]
  constructor
  · rintro ⟨p, ⟨hp, hpa⟩, hk, hcond⟩
    rw [Bool.and_eq_true] at hcond
    refine ⟨hk, hcond.1, p, hp, hpa, ?_⟩
    simpa using hcond.2
  · rintro ⟨hk, hka, p, hp, hpa, hname⟩
    exact ⟨p, ⟨hp, hpa⟩, hk, by simp [hka, hname]⟩

/-- C3: allocate fails with AccessDisabled or QuotaExceeded without
touching any pool when the quota tracker rejects; the candidate order is
active providers ascending by priority with each provider's active pools
ascending by occupancy; when admitted, the first candidate with capacity
wins and only that pool's occupancy is bumped; and the call fails with
AllPoolsExhausted exactly when every eligible pool is exhausted. -/
theorem C3_allocate_first_fit (st : EngineState) (now : Nat) :
    ((checkAndConsume st.counter now).1 = QuotaResult.AccessDisabled →
      (allocate st now).1 = AllocResult.AccessDisabled ∧
      (allocate st now).2.pools = st.pools) ∧
    ((checkAndConsume st.counter now).1 = QuotaResult.QuotaExceeded →
      (allocate st now).1 = AllocResult.QuotaExceeded ∧
      (allocate st now).2.pools = st.pools) ∧
    (List.Sorted providerLE (activeProvidersByPriority st.providers) ∧
      ∀ p : Provider, List.Sorted poolLE (poolsForProvider st.pools p)) ∧
    (∀ k : Pool, k ∈ candidatePools st ↔
      (k ∈ st.pools ∧ k.is_active = true ∧
        ∃ p ∈ st.providers, p.is_active = true ∧ k.provider_name = p.name)) ∧
    ((checkAndConsume st.counter now).1 = QuotaResult.Allowed →
      ((allocate st now).1 = AllocResult.AllPoolsExhausted ↔
        ∀ k ∈ candidatePools st, poolHasCapacity k = false)) ∧
    (∀ pid : Nat, (allocate st now).1 = AllocResult.Allocated pid →
      ∃ l1 k l2, candidatePools st = l1 ++ k :: l2 ∧ k.pid = pid ∧
        poolHasCapacity k = true ∧ (∀ j ∈ l1, poolHasCapacity j = false) ∧
        (allocate st now).2.pools = bumpPool st.pools pid) := by
  refine ⟨?_, ?_, ⟨List.sorted_insertionSort providerLE _,
    fun p => List.sorted_insertionSort poolLE _⟩, fun k => mem_candidatePools st k, ?_, ?_⟩
  · intro hcc
    rcases hq : checkAndConsume st.counter now with ⟨res, c1⟩
    rw [hq] at hcc
    simp only at hcc
    subst hcc
    simp [allocate, hq]
  · intro hcc
    rcases hq : checkAndConsume st.counter now with ⟨res, c1⟩
    rw [hq] at hcc
    simp only at hcc
    subst hcc
    simp [allocate, hq]
  · intro hcc
    rcases hq : checkAndConsume st.counter now with ⟨res, c1⟩
    rw [hq] at hcc
    simp only at hcc
    subst hcc
    rcases hff : firstFit (candidatePools st) with _ | k
    · rw [← firstFit_none_iff, hff]
      simp [allocate, hq, hff]
    · obtain ⟨l1, l2, heq, hcap, hall⟩ := firstFit_some _ _ hff
      constructor
      · intro habs
        simp [allocate, hq, hff] at habs
      · intro hallcap
        have h2 := hallcap k (by rw [heq]; exact List.mem_append_right _ (List.mem_cons_self _ _))
        rw [hcap] at h2
        cases h2
  · intro pid halloc
    rcases hq : checkAndConsume st.counter now with ⟨res, c1⟩
    cases res
    · rcases hff : firstFit (candidatePools st) with _ | k
      · simp [allocate, hq, hff] at halloc
      · obtain ⟨l1, l2, heq, hcap, hall⟩ := firstFit_some _ _ hff
        simp only [allocate, hq, hff] at halloc ⊢
        have hkp : k.pid = pid := by simpa using halloc
        exact ⟨l1, k, l2, heq, hkp, hcap, hall, by rw [hkp]⟩
    · simp [allocate, hq] at halloc
    · simp [allocate, hq] at halloc

/-- Witness for C3 at a concrete engine state: one active provider with a
single full pool of capacity 1, an enabled counter well under its limit —
the allocate call reports AllPoolsExhausted. -/
theorem C3_allocate_first_fit_witness :
    (allocate (EngineState.mk [Provider.mk "openai" 0 true]
        [Pool.mk 1 "openai" 1 1 true] (UsageCounter.mk 0 5 30 0 true)) 0).1 =
      AllocResult.AllPoolsExhausted ↔
    ∀ k ∈ candidatePools (EngineState.mk [Provider.mk "openai" 0 true]
        [Pool.mk 1 "openai" 1 1 true] (UsageCounter.mk 0 5 30 0 true)),
      poolHasCapacity k = false :=
  (C3_allocate_first_fit (EngineState.mk [Provider.mk "openai" 0 true]
    [Pool.mk 1 "openai" 1 1 true] (UsageCounter.mk 0 5 30 0 true)) 0).2.2.2.2.1 rfl

/-! ## Admin frontend: KeyPools.vue and the router guard -/

/-- Embedded from KeyPools.vue, usage-rate column: the displayed
percentage is 0 for the unbounded sentinel `-1` and otherwise
Math.round((current_clients / max_clients) * 100), with JS numbers
modelled as exact rationals; JS Math.round is floor of x + 1/2, which is
Mathlib round. -/
def usageRatePercent (current_clients : Nat) (max_clients : Int) : Int :=
  if max_clients = -1 then 0
  else round (((current_clients : ℚ) / (max_clients : ℚ)) * 100)

/-- Embedded from KeyPools.vue, clients column: the capacity half of the
display is the infinity sign for the sentinel and the number otherwise. -/
def capacityDisplay (max_clients : Int) : String :=
  if max_clients = -1 then "∞" else toString max_clients

/-- C7: for a bounded pool the displayed usage rate equals
round(100 * current_clients / max_clients); a pool with the unbounded
sentinel -1 is displayed with capacity infinity and a usage rate of 0. -/
theorem C7_usage_rate_display :
    (∀ (c : Nat) (m : Int), 0 < m →
      usageRatePercent c m = round ((100 * (c : ℚ)) / (m : ℚ))) ∧
    (∀ c : Nat, usageRatePercent c (-1) = 0) ∧
    capacityDisplay (-1) = "∞" := by
  refine ⟨?_, fun c => by simp [usageRatePercent], by simp [capacityDisplay]⟩
  intro c m hm
  have hne : m ≠ -1 := by omega
  simp only [usageRatePercent, if_neg hne]
  congr 1
  ring

/-- Witness for C7 at the concrete bounded pool: 1 client of capacity 2
displays the rate round(100/2). -/
theorem C7_usage_rate_display_witness :
    usageRatePercent 1 2 = round ((100 * ((1 : Nat) : ℚ)) / (((2 : Int)) : ℚ)) :=
  C7_usage_rate_display.1 1 2 (by decide)

/-- Embedded from KeyPools.vue, provider dialog form fields. -/
structure ProviderForm where
  name : String
  display_name : String
  base_url : String
  description : String
  priority : Int
  is_active : Bool
deriving DecidableEq, Repr

/-- Embedded from showProviderDialog's reset branch. -/
def defaultProviderForm : ProviderForm :=
  ProviderForm.mk "" "" "" "" 0 true

/-- Embedded from KeyPools.vue showProviderDialog(provider = null):
isEditingProvider is set exactly when an existing row is passed, and the
form is that row or the defaults. -/
def showProviderDialog (provider : Option ProviderForm) : Bool × ProviderForm :=
  match provider with
  | some row => (true, row)
  | none => (false, defaultProviderForm)

/-- Embedded from the identifier input's binding: disabled follows
isEditingProvider. -/
def providerNameInputDisabled (isEditingProvider : Bool) : Bool :=
  isEditingProvider

/-- A character matched by the providerRules pattern class [a-zA-Z0-9_]. -/
def providerNameCharOk (ch : Char) : Bool :=
  (decide ('a' ≤ ch) && decide (ch ≤ 'z')) ||
  (decide ('A' ≤ ch) && decide (ch ≤ 'Z')) ||
  (decide ('0' ≤ ch) && decide (ch ≤ '9')) || ch == '_'

/-- Embedded from providerRules on the identifier: required, plus the
anchored pattern [a-zA-Z0-9_]+ (strings modelled as character lists). -/
def providerNameValid (s : List Char) : Bool :=
  decide (0 < s.length) && s.all providerNameCharOk

/-- Embedded from the el-input-number bounds on priority (min 0, max
100): the control clamps the entered value into range. -/
def priorityClamp (x : Int) : Int := max 0 (min 100 x)

/-- C8: the provider identifier input is disabled exactly when editing an
existing provider; on creation the identifier must be a nonempty string of
letters, digits and underscores; and the priority control keeps the value
non-negative (minimum 0). -/
theorem C8_provider_editor :
    (∀ provider : Option ProviderForm,
      providerNameInputDisabled (showProviderDialog provider).1 = provider.isSome) ∧
    (∀ s : List Char, providerNameValid s = true ↔
      (s ≠ [] ∧ ∀ ch ∈ s, providerNameCharOk ch = true)) ∧
    (∀ x : Int, 0 ≤ priorityClamp x ∧ priorityClamp x ≤ 100) := by
  refine ⟨?_, ?_, ?_⟩
  · intro provider
    cases provider <;> rfl
  · intro s
    simp only [providerNameValid, Bool.and_eq_true, decide_eq_true_eq, List.all_eq_true]
    rw [List.length_pos]
  · intro x
    exact ⟨le_max_left _ _, max_le (by norm_num) (min_le_left _ _)⟩

/-- JS truthiness of the stored admin_token: a missing key (null) and the
empty string are both falsy. -/
def jsTruthy : Option String → Bool
  | none => false
  | some s => !(s == "")

/-- Embedded from src/frontend/src/router/index.js beforeEach guard: the
path a navigation is sent to, given its target path and the stored
admin_token. -/
def routerGuard (toPath : String) (token : Option String) : String :=
  if (!(toPath == "/admin/login")) && (!(jsTruthy token)) then "/admin/login"
  else if (toPath == "/admin/login") && jsTruthy token then "/admin/dashboard"
  else toPath

/-- C10: with no token stored every navigation lands on /admin/login (so
no authenticated-area route is reachable without a token); with a token,
a navigation to /admin/login is redirected to /admin/dashboard and any
other navigation proceeds to its target unchanged. -/
theorem C10_router_guard :
    (∀ (p : String) (t : Option String), jsTruthy t = false →
      routerGuard p t = "/admin/login") ∧
    (∀ (p : String) (t : Option String), jsTruthy t = true →
      (p = "/admin/login" → routerGuard p t = "/admin/dashboard") ∧
      (p ≠ "/admin/login" → routerGuard p t = p)) ∧
    (∀ (p : String) (t : Option String),
      routerGuard p t ≠ "/admin/login" → jsTruthy t = true) := by
  have hall : ∀ (p : String) (t : Option String), jsTruthy t = false →
      routerGuard p t = "/admin/login" := by
    intro p t ht
    by_cases hp : p = "/admin/login"
    · simp [routerGuard, hp, ht]
    · simp [routerGuard, hp, ht]
  refine ⟨hall, ?_, ?_⟩
  · intro p t ht
    constructor
    · intro hp
      simp [routerGuard, hp, ht]
    · intro hp
      simp [routerGuard, hp, ht]
  · intro p t h
    cases hb : jsTruthy t
    · exact absurd (hall p t hb) h
    · rfl

/-- Witness for C10 at concrete inputs: with no stored token a navigation
to the dashboard is redirected to the login page. -/
theorem C10_router_guard_witness :
    routerGuard "/admin/dashboard" none = "/admin/login" :=
  C10_router_guard.1 "/admin/dashboard" none rfl

/-- Embedded from KeyPools.vue maskApiKey (strings as character lists,
`none` for the JS null): a falsy key displays as the empty string; a key
of length at most 8 is shown unchanged; otherwise the first four and last
four characters are kept and the middle replaced by asterisks. -/
def maskApiKey (apiKey : Option (List Char)) : List Char :=
  match apiKey with
  | none => []
  | some k =>
    if k.length = 0 then []
    else if k.length ≤ 8 then k
    else k.take 4 ++ List.replicate (k.length - 8) '*' ++ k.drop (k.length - 4)

/-- C9: maskApiKey returns the empty string on a null or empty key, the
key unchanged when its length is at most 8, and otherwise a string of the
same length preserving the first four and last four characters with every
character in between replaced by an asterisk. -/
theorem C9_maskApiKey_spec :
    (maskApiKey none = [] ∧ maskApiKey (some []) = []) ∧
    (∀ k : List Char, k.length ≤ 8 → maskApiKey (some k) = k) ∧
    (∀ k : List Char, 8 < k.length →
      (maskApiKey (some k)).length = k.length ∧
      (maskApiKey (some k)).take 4 = k.take 4 ∧
      (maskApiKey (some k)).drop (k.length - 4) = k.drop (k.length - 4) ∧
      ∀ c ∈ ((maskApiKey (some k)).drop 4).take (k.length - 8), c = '*') := by
  refine ⟨⟨rfl, rfl⟩, ?_, ?_⟩
  · intro k hk
    by_cases h0 : k.length = 0
    · have : k = [] := List.length_eq_zero.mp h0
      simp [maskApiKey, this]
    · simp [maskApiKey, h0, hk]
  · intro k hk
    have h0 : ¬ k.length = 0 := by omega
    have h8 : ¬ k.length ≤ 8 := by omega
    have hmask : maskApiKey (some k) =
        k.take 4 ++ List.replicate (k.length - 8) '*' ++ k.drop (k.length - 4) := by
      simp [maskApiKey, h0, h8]
    have hta : (k.take 4).length = 4 := by
      rw [List.length_take]
      omega
    have hrb : (List.replicate (k.length - 8) '*').length = k.length - 8 :=
      List.length_replicate _ _
    have hdc : (k.drop (k.length - 4)).length = 4 := by
      rw [List.length_drop]
      omega
    refine ⟨?_, ?_, ?_, ?_⟩
    · rw [hmask]
      simp only [List.length_append, hta, hrb, hdc]
      omega
    · rw [hmask, List.append_assoc, List.take_append_of_le_length (by omega),
        List.take_take]
      norm_num
    · rw [hmask]
      have hab : (k.take 4 ++ List.replicate (k.length - 8) '*').length = k.length - 4 := by
        rw [List.length_append, hta, hrb]
        omega
      rw [← hab, List.drop_left]
    · rw [hmask, List.append_assoc, List.drop_left' hta,
        List.take_append_of_le_length (le_of_eq hrb.symm)]
      intro c hc
      have hsub := List.take_subset (k.length - 8) (List.replicate (k.length - 8) '*') hc
      exact List.eq_of_mem_replicate hsub

/-- Witness for C9 at a concrete 10-character key. -/
theorem C9_maskApiKey_spec_witness :
    maskApiKey (some ['s', 'k', '-', 'a', 'b', 'c', 'd', 'e', 'f', 'g']) =
      ['s', 'k', '-', 'a', '*', '*', 'c', 'd', 'e', 'f', 'g'] ∨
    (maskApiKey (some ['s', 'k', '-', 'a', 'b', 'c', 'd', 'e', 'f', 'g'])).take 4 =
      ['s', 'k', '-', 'a'] :=
  Or.inr (by
    have h := (C9_maskApiKey_spec.2.2
      ['s', 'k', '-', 'a', 'b', 'c', 'd', 'e', 'f', 'g'] (by decide)).2.1
    simpa using h)

end SenWeaver
